import Mathlib

/-!
Verification of the 2048 game core (src/2048game.py).

The board (class GameState) is a size × size array `data` with `data[y][x]`
either None or an integer; we embed it as a function from coordinate pairs
(x, y) to `Option Nat`, with the size carried in the type.  The session
(class GameSession) owns a board and the `isGameOver` flag.  The mutating
methods become functions from state to state; the `random.randint` stream
feeding `addNumToRandomPoint` becomes an explicit list of sampled
coordinates.
-/

namespace Game2048

/-- The Move enum of the game: up = 0, down = 1, left = 2, right = 3. -/
inductive Move where
  | up
  | down
  | left
  | right
deriving DecidableEq

instance : Fintype Move where
  elems := {Move.up, Move.down, Move.left, Move.right}
  complete := by intro m; cases m <;> simp

/-- The board contents: GameState.data, with `data[y][x]` accessed as the
value at the pair (x, y).  `none` is Python's None (an empty cell). -/
abbrev Grid (n : Nat) := Fin n × Fin n → Option Nat

/-- The grid of a fresh GameState(size): every cell None. -/
def emptyGrid (n : Nat) : Grid n := fun _ => none

/-- The row-major scan order used by every nested loop of the source:
y outer, x inner, both ascending, visiting (x, y). -/
def passOrder (n : Nat) : List (Fin n × Fin n) :=
  (List.finRange n).flatMap fun y => (List.finRange n).map fun x => (x, y)

/-- GameState.__eq__ : two same-size grids are equal iff every item agrees
(cell-by-cell scan; the size comparison of the source is settled here by
the type). -/
def gridEqB {n : Nat} (g1 g2 : Grid n) : Bool :=
  (passOrder n).all fun p => g1 p == g2 p

/-- GameSession.shiftOneItemTo: if the end cell is empty, move the start
value there; else if it equals the start value, store their sum there;
else do nothing; in the first two cases clear the start cell. -/
def shiftOneItemTo {n : Nat} (g : Grid n) (s e : Fin n × Fin n) : Grid n :=
  match g e with
  | none => Function.update (Function.update g e (g s)) s none
  | some ev =>
    match g s with
    | some sv =>
      if sv = ev then Function.update (Function.update g e (some (sv + ev))) s none
      else g
    | none => g

/-- The neighbour one step in direction `m` from `p`, when the guard of the
corresponding branch of moveAllItemsInDir holds (up: y>0, down: y<size-1,
left: x>0, right: x<size-1); `none` when the guard fails. -/
def targetOf (m : Move) {n : Nat} (p : Fin n × Fin n) : Option (Fin n × Fin n) :=
  match m with
  | Move.up =>
    if _h : 0 < p.2.val then
      some (p.1, ⟨p.2.val - 1, lt_of_le_of_lt (Nat.sub_le _ _) p.2.isLt⟩)
    else none
  | Move.down =>
    if h : p.2.val < n - 1 then some (p.1, ⟨p.2.val + 1, by omega⟩) else none
  | Move.left =>
    if _h : 0 < p.1.val then
      some (⟨p.1.val - 1, lt_of_le_of_lt (Nat.sub_le _ _) p.1.isLt⟩, p.2)
    else none
  | Move.right =>
    if h : p.1.val < n - 1 then some (⟨p.1.val + 1, by omega⟩, p.2) else none

/-- One iteration of the scan body inside moveAllItemsInDir: skip an empty
cell, otherwise shift it one step in the move's direction when the bounds
guard allows. -/
def moveOneStep (m : Move) {n : Nat} (g : Grid n) (p : Fin n × Fin n) : Grid n :=
  match g p with
  | none => g
  | some _ =>
    match targetOf m p with
    | none => g
    | some q => shiftOneItemTo g p q

/-- One full row-major pass of moveAllItemsInDir's inner double loop. -/
def movePass (m : Move) {n : Nat} (g : Grid n) : Grid n :=
  (passOrder n).foldl (moveOneStep m) g

/-- The while-loop of moveAllItemsInDir: while the grid differs from
`last` (initially a fresh empty GameState), snapshot it into `last` and run
one pass.  The loop of the source terminates (proved below through the
`potential` measure); the fuel argument is a bound on the number of guard
checks that is proved sufficient, so the base case is never reached from
`moveAllItemsInDir`. -/
def moveLoop (m : Move) {n : Nat} : Nat → Grid n → Grid n → Grid n
  | 0, g, _ => g
  | fuel + 1, g, last =>
    if gridEqB g last then g else moveLoop m fuel (movePass m g) g

/-- Total displacement of a tile at `p` from the edge that move `m` pushes
toward; the termination measure of the pass loop. -/
def disp (m : Move) {n : Nat} (p : Fin n × Fin n) : Nat :=
  match m with
  | Move.up => p.2.val
  | Move.down => n - 1 - p.2.val
  | Move.left => p.1.val
  | Move.right => n - 1 - p.1.val

/-- Sum of a per-cell weight over the whole grid. -/
def gridSum {n : Nat} (f : Fin n × Fin n → Option Nat → Nat) (g : Grid n) : Nat :=
  ∑ p : Fin n × Fin n, f p (g p)

/-- Weight of one cell for the termination measure: its displacement if it
holds a tile, 0 if empty. -/
def cellPot (m : Move) {n : Nat} (p : Fin n × Fin n) (v : Option Nat) : Nat :=
  match v with
  | none => 0
  | some _ => disp m p

/-- Termination measure of the pass loop: total displacement of all tiles
toward the target edge. -/
def potential (m : Move) {n : Nat} (g : Grid n) : Nat := gridSum (cellPot m) g

/-- Total value on the board (empty cells count 0). -/
def sumGrid {n : Nat} (g : Grid n) : Nat := gridSum (fun _ v => v.getD 0) g

/-- GameSession.moveAllItemsInDir: repeat row-major passes until a full
pass leaves the grid unchanged (the comparison grid starts out as a fresh
empty GameState, exactly as in the source). -/
def moveAllItemsInDir (m : Move) {n : Nat} (g : Grid n) : Grid n :=
  moveLoop m (n * n * n + 2) g (emptyGrid n)

/-- The GameSession class: the owned grid and the isGameOver flag. -/
structure GameSession (n : Nat) where
  gameState : Grid n
  isGameOver : Bool

/-- GameSession.__init__ : a fresh GameState (all cells None) and
isGameOver = False. -/
def initSession (n : Nat) : GameSession n :=
  { gameState := emptyGrid n, isGameOver := false }

/-- The list movLs of checkIfGameOver. -/
def movLs : List Move := [Move.up, Move.down, Move.left, Move.right]

/-- The flag computed by GameSession.checkIfGameOver, as a function of the
grid alone: start from True, then set False if every cell is empty or some
of the four simulated moves changes the grid. -/
def checkIfGameOver {n : Nat} (g : Grid n) : Bool :=
  let isEmpty := (passOrder n).all fun p => g p == none
  let gameMoves := movLs.map fun m => moveAllItemsInDir m g
  if isEmpty || !(gameMoves.all fun x => gridEqB g x) then false else true

/-- GameSession.checkIfGameOver as a state transformer: the four simulated
moves run on disposable copies of the session, and only the flag of the
session itself is written. -/
def checkIfGameOverS {n : Nat} (s : GameSession n) : GameSession n :=
  let isEmpty := (passOrder n).all fun p => s.gameState p == none
  let gameMoves := movLs.map fun m =>
    { s with gameState := moveAllItemsInDir m s.gameState }
  if isEmpty || !(gameMoves.all fun t => gridEqB s.gameState t.gameState) then
    { s with isGameOver := false }
  else
    { s with isGameOver := true }

/-- GameSession.addNumToRandomPoint: keep drawing coordinates from the
random stream until one names an empty cell, then write `val` there.
`pts` is the stream of sampled coordinates; the nil case models cutting
off the unbounded retry loop, which the source escapes as soon as the
stream hits an empty cell (the theorems below always supply a stream
containing one). -/
def addNumToRandomPoint {n : Nat} (g : Grid n) (val : Nat) :
    List (Fin n × Fin n) → Grid n
  | [] => g
  | c :: rest =>
    if g c = none then Function.update g c (some val)
    else addNumToRandomPoint g val rest

/-- GameSession.nextMove: resolve the move, recompute the flag, then spawn
a 2 at a randomly sampled empty cell unless the grid is completely full. -/
def nextMove {n : Nat} (s : GameSession n) (m : Move)
    (pts : List (Fin n × Fin n)) : GameSession n :=
  let s1 : GameSession n := { s with gameState := moveAllItemsInDir m s.gameState }
  let s2 := checkIfGameOverS s1
  let isFull := (passOrder n).all fun p => !(s2.gameState p == none)
  if isFull then s2
  else { s2 with gameState := addNumToRandomPoint s2.gameState 2 pts }

/-- The in-range condition asserted by GameState.getItem and
GameState.setItem: `x in range(0, size) and y in range(0, size)`. -/
def inRange (n : Nat) (x y : Int) : Prop :=
  0 ≤ x ∧ x < (n : Int) ∧ 0 ≤ y ∧ y < (n : Int)

instance (n : Nat) (x y : Int) : Decidable (inRange n x y) := by
  unfold inRange; infer_instance

/-- The coordinate pair of an in-range access. -/
def toCell {n : Nat} {x y : Int} (h : inRange n x y) : Fin n × Fin n :=
  (⟨x.toNat, by obtain ⟨h1, h2, h3, h4⟩ := h; omega⟩,
   ⟨y.toNat, by obtain ⟨h1, h2, h3, h4⟩ := h; omega⟩)

/-- GameState.getItem: assert the range check, then read data[y][x].
A failed assertion is the `Except.error` outcome. -/
def getItem (n : Nat) (g : Grid n) (x y : Int) : Except Unit (Option Nat) :=
  if h : inRange n x y then Except.ok (g (toCell h)) else Except.error ()

/-- GameState.setItem: assert the range check, then overwrite data[y][x]. -/
def setItem (n : Nat) (g : Grid n) (x y : Int) (v : Option Nat) :
    Except Unit (Grid n) :=
  if h : inRange n x y then Except.ok (Function.update g (toCell h) v)
  else Except.error ()

/-! ### Concrete boards and sessions used in the claim instances -/

/-- Size-4 board whose row 0 is [2, 2, 2, empty], all other cells empty. -/
def c2Start : Grid 4 := fun p => if p.2.val = 0 ∧ p.1.val ≤ 2 then some 2 else none

/-- Size-4 board whose row 0 is [4, 2, empty, empty], all other cells empty. -/
def c2Result : Grid 4 :=
  fun p => if p.2.val = 0 ∧ p.1.val = 0 then some 4
    else if p.2.val = 0 ∧ p.1.val = 1 then some 2 else none

/-- A 2 × 2 play from a fresh session through public nextMove calls only;
each list carries the coordinate drawn by the random sampler for the spawn
of that turn (each is empty at the moment it is drawn). -/
def c1Trace : GameSession 2 :=
  nextMove (nextMove (nextMove (nextMove (nextMove (nextMove (initSession 2)
    Move.left [((0 : Fin 2), (1 : Fin 2))])
    Move.left [((1 : Fin 2), (1 : Fin 2))])
    Move.down [((0 : Fin 2), (0 : Fin 2))])
    Move.down [((1 : Fin 2), (0 : Fin 2))])
    Move.down [((0 : Fin 2), (0 : Fin 2))])
    Move.up [((1 : Fin 2), (1 : Fin 2))]

/-- A 1 × 1 session whose single cell is occupied. -/
def c1FullSession : GameSession 1 :=
  { gameState := fun _ => some 2, isGameOver := false }

/-- A 2 × 2 board with one tile away from the left edge. -/
def c6Grid : Grid 2 := fun p => if p.1.val = 1 ∧ p.2.val = 0 then some 2 else none

/-- A 4 × 4 board with a single 8 at (1, 2). -/
def c8Grid : Grid 4 := fun p => if p.1.val = 1 ∧ p.2.val = 2 then some 8 else none

/-! ### Basic facts about the scan order and grid equality -/

lemma mem_passOrder {n : Nat} (p : Fin n × Fin n) : p ∈ passOrder n := by
  rcases p with ⟨x, y⟩
  exact List.mem_flatMap.mpr
    ⟨y, List.mem_finRange y, List.mem_map.mpr ⟨x, List.mem_finRange x, rfl⟩⟩

lemma gridEqB_iff {n : Nat} (g1 g2 : Grid n) : gridEqB g1 g2 = true ↔ g1 = g2 := by
  unfold gridEqB
  rw [List.all_eq_true]
  constructor
  · intro h
    funext p
    exact eq_of_beq (h p (mem_passOrder p))
  · intro h p _
    rw [h]
    simp

lemma gridEqB_refl {n : Nat} (g : Grid n) : gridEqB g g = true :=
  (gridEqB_iff g g).mpr rfl

lemma gridEqB_eq_false {n : Nat} {g1 g2 : Grid n} (h : g1 ≠ g2) :
    gridEqB g1 g2 = false := by
  cases hb : gridEqB g1 g2 with
  | false => rfl
  | true => exact absurd ((gridEqB_iff g1 g2).mp hb) h

/-! ### The two-cell update lemma for grid sums -/

lemma gridSum_update2 {n : Nat} (f : Fin n × Fin n → Option Nat → Nat)
    (g : Grid n) (s e : Fin n × Fin n) (hse : s ≠ e) (ve vs : Option Nat) :
    gridSum f (Function.update (Function.update g e ve) s vs) + (f e (g e) + f s (g s))
      = gridSum f g + (f e ve + f s vs) := by
  classical
  have hsplit : ∀ G : Grid n, gridSum f G
      = f s (G s) + f e (G e) + ∑ p ∈ Finset.univ \ {s, e}, f p (G p) := by
    intro G
    unfold gridSum
    rw [← Finset.sum_sdiff (Finset.subset_univ {s, e}), Finset.sum_pair hse]
    ring
  have hoff : ∀ p ∈ Finset.univ \ ({s, e} : Finset (Fin n × Fin n)),
      f p (Function.update (Function.update g e ve) s vs p) = f p (g p) := by
    intro p hp
    rw [Finset.mem_sdiff, Finset.mem_insert, Finset.mem_singleton] at hp
    push_neg at hp
    rw [Function.update_noteq hp.2.1, Function.update_noteq hp.2.2]
  rw [hsplit, hsplit g, Finset.sum_congr rfl hoff,
    Function.update_same, Function.update_noteq (Ne.symm hse), Function.update_same]
  ring

/-! ### The one-step target and its displacement -/

lemma targetOf_spec {n : Nat} {m : Move} {p q : Fin n × Fin n}
    (h : targetOf m p = some q) : p ≠ q ∧ disp m q + 1 = disp m p := by
  have hval : ∀ r1 r2 : Fin n × Fin n, r1 = r2 →
      r1.1.val = r2.1.val ∧ r1.2.val = r2.2.val := by
    intro r1 r2 hr
    rw [hr]
    exact ⟨rfl, rfl⟩
  cases m with
  | up =>
    simp only [targetOf] at h
    split at h
    · rename_i hy
      obtain ⟨h1, h2⟩ := hval _ _ (Option.some_inj.mp h)
      simp only at h1 h2
      constructor
      · intro he
        have := (hval _ _ he).2
        omega
      · simp only [disp]
        omega
    · exact absurd h (by simp)
  | down =>
    simp only [targetOf] at h
    split at h
    · rename_i hy
      obtain ⟨h1, h2⟩ := hval _ _ (Option.some_inj.mp h)
      simp only at h1 h2
      constructor
      · intro he
        have := (hval _ _ he).2
        omega
      · simp only [disp]
        omega
    · exact absurd h (by simp)
  | left =>
    simp only [targetOf] at h
    split at h
    · rename_i hx
      obtain ⟨h1, h2⟩ := hval _ _ (Option.some_inj.mp h)
      simp only at h1 h2
      constructor
      · intro he
        have := (hval _ _ he).1
        omega
      · simp only [disp]
        omega
    · exact absurd h (by simp)
  | right =>
    simp only [targetOf] at h
    split at h
    · rename_i hx
      obtain ⟨h1, h2⟩ := hval _ _ (Option.some_inj.mp h)
      simp only at h1 h2
      constructor
      · intro he
        have := (hval _ _ he).1
        omega
      · simp only [disp]
        omega
    · exact absurd h (by simp)

/-! ### Unfolding equations for shiftOneItemTo -/

lemma shiftOneItemTo_of_empty {n : Nat} {g : Grid n} {s e : Fin n × Fin n}
    (hge : g e = none) :
    shiftOneItemTo g s e = Function.update (Function.update g e (g s)) s none := by
  unfold shiftOneItemTo
  rw [hge]

lemma shiftOneItemTo_of_merge {n : Nat} {g : Grid n} {s e : Fin n × Fin n}
    {sv ev : Nat} (hge : g e = some ev) (hgs : g s = some sv) (hv : sv = ev) :
    shiftOneItemTo g s e
      = Function.update (Function.update g e (some (sv + ev))) s none := by
  unfold shiftOneItemTo
  rw [hge, hgs]
  exact if_pos hv

lemma shiftOneItemTo_of_block {n : Nat} {g : Grid n} {s e : Fin n × Fin n}
    {ev : Nat} (hge : g e = some ev) (hgs : g s ≠ some ev) :
    shiftOneItemTo g s e = g := by
  unfold shiftOneItemTo
  rw [hge]
  cases hgs2 : g s with
  | none => rfl
  | some sv =>
    rw [hgs2] at hgs
    exact if_neg (fun hv : sv = ev => hgs (by rw [hv]))

/-! ### shiftOneItemTo preserves the board total and lowers the measure -/

lemma shiftOneItemTo_sum {n : Nat} (g : Grid n) (s e : Fin n × Fin n)
    (hse : s ≠ e) : sumGrid (shiftOneItemTo g s e) = sumGrid g := by
  cases hge : g e with
  | none =>
    rw [shiftOneItemTo_of_empty hge]
    have h2 := gridSum_update2 (fun _ v => v.getD 0) g s e hse (g s) none
    rw [hge] at h2
    simp only [Option.getD_none] at h2
    unfold sumGrid
    omega
  | some ev =>
    cases hgs : g s with
    | none => rw [shiftOneItemTo_of_block hge (by rw [hgs]; exact fun h => by cases h)]
    | some sv =>
      by_cases hv : sv = ev
      · rw [shiftOneItemTo_of_merge hge hgs hv]
        have h2 := gridSum_update2 (fun _ v => v.getD 0) g s e hse (some (sv + ev)) none
        rw [hge, hgs] at h2
        simp only [Option.getD_none, Option.getD_some] at h2
        unfold sumGrid
        omega
      · rw [shiftOneItemTo_of_block hge (by rw [hgs]; exact fun h => hv (Option.some_inj.mp h))]

lemma shiftOneItemTo_pot {n : Nat} (m : Move) (g : Grid n) (s e : Fin n × Fin n)
    (hse : s ≠ e) (hd : disp m e + 1 = disp m s) :
    shiftOneItemTo g s e = g ∨
      potential m (shiftOneItemTo g s e) < potential m g := by
  cases hge : g e with
  | none =>
    cases hgs : g s with
    | none =>
      left
      rw [shiftOneItemTo_of_empty hge, hgs]
      have he : Function.update g e none = g := by
        rw [← hge]
        exact Function.update_eq_self e g
      rw [he]
      rw [← hgs]
      exact Function.update_eq_self s g
    | some sv =>
      right
      rw [shiftOneItemTo_of_empty hge, hgs]
      have h2 := gridSum_update2 (cellPot m) g s e hse (g s) none
      rw [hge, hgs] at h2
      simp only [cellPot] at h2
      unfold potential
      omega
  | some ev =>
    cases hgs : g s with
    | none =>
      left
      exact shiftOneItemTo_of_block hge (by rw [hgs]; exact fun h => by cases h)
    | some sv =>
      by_cases hv : sv = ev
      · right
        rw [shiftOneItemTo_of_merge hge hgs hv]
        have h2 := gridSum_update2 (cellPot m) g s e hse (some (sv + ev)) none
        rw [hge, hgs] at h2
        simp only [cellPot] at h2
        unfold potential
        omega
      · left
        exact shiftOneItemTo_of_block hge
          (by rw [hgs]; exact fun h => hv (Option.some_inj.mp h))

/-! ### One scan step preserves the total and never raises the measure -/

lemma moveOneStep_sum {n : Nat} (m : Move) (g : Grid n) (p : Fin n × Fin n) :
    sumGrid (moveOneStep m g p) = sumGrid g := by
  unfold moveOneStep
  cases hgp : g p with
  | none => rfl
  | some v =>
    cases ht : targetOf m p with
    | none => rfl
    | some q => exact shiftOneItemTo_sum g p q (targetOf_spec ht).1

lemma moveOneStep_pot {n : Nat} (m : Move) (g : Grid n) (p : Fin n × Fin n) :
    moveOneStep m g p = g ∨ potential m (moveOneStep m g p) < potential m g := by
  unfold moveOneStep
  cases hgp : g p with
  | none => left; rfl
  | some v =>
    cases ht : targetOf m p with
    | none => left; rfl
    | some q =>
      obtain ⟨hne, hd⟩ := targetOf_spec ht
      exact shiftOneItemTo_pot m g p q hne hd

/-! ### A full pass: fold versions of the step lemmas -/

lemma foldl_step_sum {n : Nat} (m : Move) :
    ∀ (l : List (Fin n × Fin n)) (g : Grid n),
      sumGrid (l.foldl (moveOneStep m) g) = sumGrid g := by
  intro l
  induction l with
  | nil => intro g; rfl
  | cons p l ih =>
    intro g
    rw [List.foldl_cons, ih (moveOneStep m g p), moveOneStep_sum]

lemma foldl_step_pot_le {n : Nat} (m : Move) :
    ∀ (l : List (Fin n × Fin n)) (g : Grid n),
      potential m (l.foldl (moveOneStep m) g) ≤ potential m g := by
  intro l
  induction l with
  | nil => intro g; exact le_rfl
  | cons p l ih =>
    intro g
    rw [List.foldl_cons]
    rcases moveOneStep_pot m g p with h | h
    · rw [h]
      exact ih g
    · exact le_trans (ih _) (le_of_lt h)

lemma foldl_step_eq_or_lt {n : Nat} (m : Move) :
    ∀ (l : List (Fin n × Fin n)) (g : Grid n),
      l.foldl (moveOneStep m) g = g ∨
        potential m (l.foldl (moveOneStep m) g) < potential m g := by
  intro l
  induction l with
  | nil => intro g; left; rfl
  | cons p l ih =>
    intro g
    rw [List.foldl_cons]
    rcases moveOneStep_pot m g p with h | h
    · rw [h]
      exact ih g
    · right
      exact lt_of_le_of_lt (foldl_step_pot_le m l _) h

/-- If a whole scan leaves the grid unchanged, every single step of that
scan, applied to the unchanged grid, is a no-op. -/
lemma foldl_step_fix {n : Nat} (m : Move) :
    ∀ (l : List (Fin n × Fin n)) (g : Grid n),
      l.foldl (moveOneStep m) g = g → ∀ p ∈ l, moveOneStep m g p = g := by
  intro l
  induction l with
  | nil => intro g _ p hp; exact absurd hp (List.not_mem_nil p)
  | cons c l ih =>
    intro g hfold p hp
    rw [List.foldl_cons] at hfold
    have hstep : moveOneStep m g c = g := by
      rcases moveOneStep_pot m g c with h | h
      · exact h
      · exfalso
        rcases foldl_step_eq_or_lt m l (moveOneStep m g c) with h2 | h2
        · rw [hfold] at h2
          rw [← h2] at h
          exact lt_irrefl _ h
        · rw [hfold] at h2
          exact lt_irrefl _ (lt_trans h2 h)
    rcases List.mem_cons.mp hp with rfl | hp
    · exact hstep
    · rw [hstep] at hfold
      exact ih g hfold p hp

lemma movePass_sum {n : Nat} (m : Move) (g : Grid n) :
    sumGrid (movePass m g) = sumGrid g :=
  foldl_step_sum m (passOrder n) g

lemma movePass_pot_le {n : Nat} (m : Move) (g : Grid n) :
    potential m (movePass m g) ≤ potential m g :=
  foldl_step_pot_le m (passOrder n) g

/-- A pass that changes the grid strictly lowers the total displacement
toward the target edge: the termination argument for the while loop. -/
lemma movePass_lt {n : Nat} {m : Move} {g : Grid n} (h : movePass m g ≠ g) :
    potential m (movePass m g) < potential m g := by
  rcases foldl_step_eq_or_lt m (passOrder n) g with h2 | h2
  · exact absurd h2 h
  · exact h2

/-! ### The measure is bounded, so the fuel of moveAllItemsInDir suffices -/

lemma cellPot_le {n : Nat} (m : Move) (p : Fin n × Fin n) (v : Option Nat) :
    cellPot m p v ≤ n := by
  cases v with
  | none => exact Nat.zero_le n
  | some w =>
    show disp m p ≤ n
    have h1 := p.1.isLt
    have h2 := p.2.isLt
    cases m <;> simp only [disp] <;> omega

lemma potential_le {n : Nat} (m : Move) (g : Grid n) :
    potential m g ≤ n * n * n := by
  have h := Finset.sum_le_card_nsmul Finset.univ
    (fun p : Fin n × Fin n => cellPot m p (g p)) n
    (fun p _ => cellPot_le m p (g p))
  rw [Finset.card_univ, Fintype.card_prod, Fintype.card_fin, smul_eq_mul] at h
  exact h

/-! ### Behaviour of the pass loop -/

lemma movePass_empty {n : Nat} (m : Move) : movePass m (emptyGrid n) = emptyGrid n := by
  unfold movePass
  generalize passOrder n = l
  induction l with
  | nil => rfl
  | cons p l ih =>
    rw [List.foldl_cons]
    have hstep : moveOneStep m (emptyGrid n) p = emptyGrid n := rfl
    rw [hstep, ih]

lemma moveLoop_self {n : Nat} (m : Move) (fuel : Nat) (g : Grid n) :
    moveLoop m fuel g g = g := by
  cases fuel with
  | zero => rfl
  | succ f =>
    unfold moveLoop
    rw [gridEqB_refl]
    rfl

/-- Once the grid is a fixed point of a pass, the loop returns it at once
(whatever the comparison grid is). -/
lemma moveLoop_of_fix {n : Nat} (m : Move) {g : Grid n} (hfix : movePass m g = g) :
    ∀ (fuel : Nat) (last : Grid n), moveLoop m fuel g last = g := by
  intro fuel last
  cases fuel with
  | zero => rfl
  | succ f =>
    unfold moveLoop
    by_cases hgl : gridEqB g last
    · rw [if_pos hgl]
    · rw [if_neg hgl, hfix]
      exact moveLoop_self m f g

lemma moveLoop_sum {n : Nat} (m : Move) :
    ∀ (fuel : Nat) (g last : Grid n), sumGrid (moveLoop m fuel g last) = sumGrid g := by
  intro fuel
  induction fuel with
  | zero => intro g last; rfl
  | succ f ih =>
    intro g last
    unfold moveLoop
    by_cases hgl : gridEqB g last
    · rw [if_pos hgl]
    · rw [if_neg hgl, ih (movePass m g) g, movePass_sum]

lemma moveLoop_pot_le {n : Nat} (m : Move) :
    ∀ (fuel : Nat) (g last : Grid n),
      potential m (moveLoop m fuel g last) ≤ potential m g := by
  intro fuel
  induction fuel with
  | zero => intro g last; exact le_rfl
  | succ f ih =>
    intro g last
    unfold moveLoop
    by_cases hgl : gridEqB g last
    · rw [if_pos hgl]
    · rw [if_neg hgl]
      exact le_trans (ih (movePass m g) g) (movePass_pot_le m g)

/-- The loop always returns some finite iterate of the pass. -/
lemma moveLoop_iterate {n : Nat} (m : Move) :
    ∀ (fuel : Nat) (g last : Grid n),
      ∃ k, moveLoop m fuel g last = (movePass m)^[k] g := by
  intro fuel
  induction fuel with
  | zero => intro g last; exact ⟨0, rfl⟩
  | succ f ih =>
    intro g last
    unfold moveLoop
    by_cases hgl : gridEqB g last
    · rw [if_pos hgl]
      exact ⟨0, rfl⟩
    · rw [if_neg hgl]
      obtain ⟨k, hk⟩ := ih (movePass m g) g
      exact ⟨k + 1, by rw [Function.iterate_succ_apply, hk]⟩

/-- With enough fuel the loop lands on a fixed point of the pass.  The
invariant carries the guarantee of the source's initial comparison grid:
the loop only stops with grid = comparison grid when a pass keeps the
grid unchanged. -/
lemma moveLoop_fix {n : Nat} (m : Move) :
    ∀ (fuel : Nat) (g last : Grid n), potential m g + 2 ≤ fuel →
      (g = last → movePass m g = g) →
      movePass m (moveLoop m fuel g last) = moveLoop m fuel g last := by
  intro fuel
  induction fuel with
  | zero =>
    intro g last hf _
    omega
  | succ f ih =>
    intro g last hf hinv
    unfold moveLoop
    by_cases hgl : gridEqB g last
    · rw [if_pos hgl]
      exact hinv ((gridEqB_iff g last).mp hgl)
    · rw [if_neg hgl]
      by_cases hfix : movePass m g = g
      · rw [hfix, moveLoop_self]
        exact hfix
      · have hlt := movePass_lt hfix
        exact ih (movePass m g) g (by omega) (fun he => absurd he hfix)

/-! ### moveAllItemsInDir: termination, fixed point, preservation -/

/-- The result of moveAllItemsInDir is a fixed point of a full pass: the
while loop exits exactly when a pass leaves the grid unchanged. -/
lemma moveAll_fix {n : Nat} (m : Move) (g : Grid n) :
    movePass m (moveAllItemsInDir m g) = moveAllItemsInDir m g := by
  unfold moveAllItemsInDir
  apply moveLoop_fix
  · have := potential_le m g
    omega
  · intro he
    rw [he]
    exact movePass_empty m

lemma moveAll_iterate {n : Nat} (m : Move) (g : Grid n) :
    ∃ k, moveAllItemsInDir m g = (movePass m)^[k] g :=
  moveLoop_iterate m _ g (emptyGrid n)

lemma moveAll_sum {n : Nat} (m : Move) (g : Grid n) :
    sumGrid (moveAllItemsInDir m g) = sumGrid g :=
  moveLoop_sum m _ g (emptyGrid n)

lemma moveAll_of_fix {n : Nat} (m : Move) {g : Grid n} (hfix : movePass m g = g) :
    moveAllItemsInDir m g = g :=
  moveLoop_of_fix m hfix _ (emptyGrid n)

/-- If even one pass changes the grid, the whole move changes the grid
(the measure already dropped and can never recover). -/
lemma moveAll_ne {n : Nat} {m : Move} {g : Grid n} (hne : movePass m g ≠ g) :
    moveAllItemsInDir m g ≠ g := by
  intro hall
  unfold moveAllItemsInDir at hall
  rw [show n * n * n + 2 = (n * n * n + 1) + 1 from rfl] at hall
  unfold moveLoop at hall
  by_cases hgl : gridEqB g (emptyGrid n)
  · apply hne
    have he : g = emptyGrid n := (gridEqB_iff _ _).mp hgl
    rw [he]
    exact movePass_empty m
  · rw [if_neg hgl] at hall
    have hle := moveLoop_pot_le m (n * n * n + 1) (movePass m g) g
    rw [hall] at hle
    exact absurd (lt_of_le_of_lt hle (movePass_lt hne)) (lt_irrefl _)

/-! ### A board with a tile and a hole always has a legal move -/

/-- Manhattan distance between two cells, used only to drive the induction
that finds a tile adjacent to a hole. -/
def manDist {n : Nat} (p q : Fin n × Fin n) : Nat :=
  (p.1.val - q.1.val) + (q.1.val - p.1.val) + ((p.2.val - q.2.val) + (q.2.val - p.2.val))

/-- Computation rules for targetOf on explicitly built neighbour cells. -/

lemma targetOf_left_mk {n : Nat} (a : Nat) (hb : a + 1 < n) (y : Fin n) (x : Fin n)
    (hx : x.val = a) : targetOf Move.left (⟨a + 1, hb⟩, y) = some (x, y) := by
  simp only [targetOf]
  split
  · simp only [Option.some_inj, Prod.mk.injEq]
    refine ⟨Fin.ext ?_, trivial⟩
    simp only [Fin.val_mk]
    omega
  · rename_i hc
    exfalso
    apply hc
    show 0 < a + 1
    omega

lemma targetOf_right_mk {n : Nat} (a : Nat) (hb : a - 1 < n) (ha : 0 < a) (han : a < n)
    (y : Fin n) (x : Fin n) (hx : x.val = a) :
    targetOf Move.right (⟨a - 1, hb⟩, y) = some (x, y) := by
  simp only [targetOf]
  split
  · simp only [Option.some_inj, Prod.mk.injEq]
    refine ⟨Fin.ext ?_, trivial⟩
    simp only [Fin.val_mk]
    omega
  · rename_i hc
    exfalso
    apply hc
    show a - 1 < n - 1
    omega

lemma targetOf_up_mk {n : Nat} (a : Nat) (hb : a + 1 < n) (x : Fin n) (y : Fin n)
    (hy : y.val = a) : targetOf Move.up (x, ⟨a + 1, hb⟩) = some (x, y) := by
  simp only [targetOf]
  split
  · simp only [Option.some_inj, Prod.mk.injEq]
    refine ⟨trivial, Fin.ext ?_⟩
    simp only [Fin.val_mk]
    omega
  · rename_i hc
    exfalso
    apply hc
    show 0 < a + 1
    omega

lemma targetOf_down_mk {n : Nat} (a : Nat) (hb : a - 1 < n) (ha : 0 < a) (han : a < n)
    (x : Fin n) (y : Fin n) (hy : y.val = a) :
    targetOf Move.down (x, ⟨a - 1, hb⟩) = some (x, y) := by
  simp only [targetOf]
  split
  · simp only [Option.some_inj, Prod.mk.injEq]
    refine ⟨trivial, Fin.ext ?_⟩
    simp only [Fin.val_mk]
    omega
  · rename_i hc
    exfalso
    apply hc
    show a - 1 < n - 1
    omega

/-- Walking from a hole toward a tile, some tile has a hole as its one-step
neighbour in some direction. -/
lemma exists_adjacent {n : Nat} (g : Grid n) :
    ∀ (d : Nat) (p q : Fin n × Fin n), manDist p q ≤ d → g p ≠ none → g q = none →
      ∃ (m : Move) (p' q' : Fin n × Fin n),
        targetOf m p' = some q' ∧ g p' ≠ none ∧ g q' = none := by
  intro d
  induction d with
  | zero =>
    intro p q hd hp hq
    exfalso
    have hpq : p = q := by
      unfold manDist at hd
      have h1 : p.1 = q.1 := Fin.ext (by omega)
      have h2 : p.2 = q.2 := Fin.ext (by omega)
      exact Prod.ext h1 h2
    rw [hpq, hq] at hp
    exact hp rfl
  | succ d ih =>
    intro p q hd hp hq
    by_cases hx1 : q.1.val < p.1.val
    · have hb : q.1.val + 1 < n := by have := p.1.isLt; omega
      by_cases hempty : g (⟨q.1.val + 1, hb⟩, q.2) = none
      · refine ih p (⟨q.1.val + 1, hb⟩, q.2) ?_ hp hempty
        simp only [manDist, Fin.val_mk] at hd ⊢
        omega
      · exact ⟨Move.left, (⟨q.1.val + 1, hb⟩, q.2), q,
          targetOf_left_mk q.1.val hb q.2 q.1 rfl, hempty, hq⟩
    · by_cases hx2 : p.1.val < q.1.val
      · have hb : q.1.val - 1 < n := by have := q.1.isLt; omega
        by_cases hempty : g (⟨q.1.val - 1, hb⟩, q.2) = none
        · refine ih p (⟨q.1.val - 1, hb⟩, q.2) ?_ hp hempty
          simp only [manDist, Fin.val_mk] at hd ⊢
          omega
        · exact ⟨Move.right, (⟨q.1.val - 1, hb⟩, q.2), q,
            targetOf_right_mk q.1.val hb (by omega) q.1.isLt q.2 q.1 rfl, hempty, hq⟩
      · by_cases hy1 : q.2.val < p.2.val
        · have hb : q.2.val + 1 < n := by have := p.2.isLt; omega
          by_cases hempty : g (q.1, ⟨q.2.val + 1, hb⟩) = none
          · refine ih p (q.1, ⟨q.2.val + 1, hb⟩) ?_ hp hempty
            simp only [manDist, Fin.val_mk] at hd ⊢
            omega
          · exact ⟨Move.up, (q.1, ⟨q.2.val + 1, hb⟩), q,
              targetOf_up_mk q.2.val hb q.1 q.2 rfl, hempty, hq⟩
        · by_cases hy2 : p.2.val < q.2.val
          · have hb : q.2.val - 1 < n := by have := q.2.isLt; omega
            by_cases hempty : g (q.1, ⟨q.2.val - 1, hb⟩) = none
            · refine ih p (q.1, ⟨q.2.val - 1, hb⟩) ?_ hp hempty
              simp only [manDist, Fin.val_mk] at hd ⊢
              omega
            · exact ⟨Move.down, (q.1, ⟨q.2.val - 1, hb⟩), q,
                targetOf_down_mk q.2.val hb (by omega) q.2.isLt q.1 q.2 rfl, hempty, hq⟩
          · exfalso
            have hpq : p = q := Prod.ext (Fin.ext (by omega)) (Fin.ext (by omega))
            rw [hpq, hq] at hp
            exact hp rfl

/-- A grid having both a tile and a hole is changed by some move: there is
a tile whose direction neighbour is empty, and the scan step at that tile
is a real shift. -/
lemma movable {n : Nat} (g : Grid n) (hp : ∃ p, g p ≠ none) (hq : ∃ q, g q = none) :
    ∃ m : Move, movePass m g ≠ g := by
  obtain ⟨p, hp⟩ := hp
  obtain ⟨q, hq⟩ := hq
  obtain ⟨m, p', q', ht, hp', hq'⟩ :=
    exists_adjacent g (manDist p q) p q le_rfl hp hq
  refine ⟨m, fun hfix => ?_⟩
  have hstep := foldl_step_fix m (passOrder n) g hfix p' (mem_passOrder p')
  obtain ⟨v, hv⟩ := Option.ne_none_iff_exists'.mp hp'
  unfold moveOneStep at hstep
  rw [hv, ht] at hstep
  have hstep2 : shiftOneItemTo g p' q' = g := hstep
  rw [shiftOneItemTo_of_empty hq'] at hstep2
  have hcell := congrFun hstep2 p'
  rw [Function.update_same] at hcell
  rw [← hcell] at hv
  exact Option.noConfusion hv

/-- If the board has a tile and a hole, some full move changes it. -/
lemma movable_all {n : Nat} (g : Grid n) (hp : ∃ p, g p ≠ none)
    (hq : ∃ q, g q = none) : ∃ m : Move, moveAllItemsInDir m g ≠ g := by
  obtain ⟨m, hm⟩ := movable g hp hq
  exact ⟨m, moveAll_ne hm⟩

/-! ### checkIfGameOver: what the computed flag means -/

/-- The flag as a boolean formula: some cell occupied and all four
simulated moves leave the grid unchanged. -/
lemma checkIfGameOver_eq {n : Nat} (g : Grid n) :
    checkIfGameOver g
      = (!((passOrder n).all fun p => g p == none) &&
         ((movLs.map fun m => moveAllItemsInDir m g).all fun x => gridEqB g x)) := by
  simp only [checkIfGameOver]
  cases hB1 : (passOrder n).all fun p => g p == none <;>
    cases hB2 : (movLs.map fun m => moveAllItemsInDir m g).all fun x => gridEqB g x <;>
    rfl

lemma mem_movLs (m : Move) : m ∈ movLs := by
  cases m <;> simp [movLs]

/-- The raw meaning of the flag: true exactly when some cell is occupied
(the source's all-cells-empty test fails) and all four simulated moves
leave the grid unchanged. -/
lemma checkIfGameOver_spec {n : Nat} (g : Grid n) :
    checkIfGameOver g = true ↔
      (∃ p, g p ≠ none) ∧ ∀ m : Move, moveAllItemsInDir m g = g := by
  rw [checkIfGameOver_eq, Bool.and_eq_true, Bool.not_eq_true']
  constructor
  · rintro ⟨h1, h2⟩
    constructor
    · by_contra hno
      push_neg at hno
      have hall : ((passOrder n).all fun p => g p == none) = true := by
        rw [List.all_eq_true]
        intro p _
        rw [hno p]
        rfl
      rw [h1] at hall
      cases hall
    · intro m
      have hm := List.all_eq_true.mp h2 (moveAllItemsInDir m g)
        (List.mem_map.mpr ⟨m, mem_movLs m, rfl⟩)
      exact ((gridEqB_iff _ _).mp hm).symm
  · rintro ⟨⟨p, hp⟩, hall⟩
    constructor
    · cases hb : (passOrder n).all fun p => g p == none
      · rfl
      · have := List.all_eq_true.mp hb p (mem_passOrder p)
        exact absurd (eq_of_beq this) hp
    · rw [List.all_eq_true]
      intro x hx
      obtain ⟨m, _, rfl⟩ := List.mem_map.mp hx
      exact (gridEqB_iff _ _).mpr (hall m).symm

/-- For a board of positive size the flag is true exactly when the grid is
completely full and no move changes it: a non-full, non-void board always
has a legal move, so the source's all-cells-empty shortcut never changes
the outcome. -/
lemma checkIfGameOver_full_iff {n : Nat} (hn : 0 < n) (g : Grid n) :
    checkIfGameOver g = true ↔
      (∀ p, g p ≠ none) ∧ ∀ m : Move, moveAllItemsInDir m g = g := by
  rw [checkIfGameOver_spec]
  constructor
  · rintro ⟨⟨p, hp⟩, hall⟩
    refine ⟨?_, hall⟩
    by_contra hfull
    push_neg at hfull
    obtain ⟨q, hq⟩ := hfull
    obtain ⟨m, hm⟩ := movable_all g ⟨p, hp⟩ ⟨q, hq⟩
    exact hm (hall m)
  · rintro ⟨hfull, hall⟩
    exact ⟨⟨(⟨0, hn⟩, ⟨0, hn⟩), hfull _⟩, hall⟩

/-- Mapping then testing all elements is testing the composite on all
elements (the library version of this fact fixes both types equal). -/
lemma all_map_comp {α : Type} {β : Type} (l : List α) (f : α → β) (p : β → Bool) :
    (l.map f).all p = l.all fun a => p (f a) := by
  induction l with
  | nil => rfl
  | cons a l ih => simp only [List.map_cons, List.all_cons, ih]

/-- The state transformer and the pure flag agree, and the grid is kept. -/
lemma checkIfGameOverS_eq {n : Nat} (s : GameSession n) :
    checkIfGameOverS s
      = { gameState := s.gameState, isGameOver := checkIfGameOver s.gameState } := by
  have hAll : ((movLs.map fun m =>
      ({ s with gameState := moveAllItemsInDir m s.gameState } : GameSession n)).all
        fun t => gridEqB s.gameState t.gameState)
      = ((movLs.map fun m => moveAllItemsInDir m s.gameState).all
        fun x => gridEqB s.gameState x) := by
    rw [all_map_comp, all_map_comp]
  simp only [checkIfGameOverS, checkIfGameOver]
  rw [hAll]
  split
  · rfl
  · rfl

/-! ### nextMove: how grid and flag are produced -/

lemma nextMove_isGameOver {n : Nat} (s : GameSession n) (m : Move)
    (pts : List (Fin n × Fin n)) :
    (nextMove s m pts).isGameOver
      = checkIfGameOver (moveAllItemsInDir m s.gameState) := by
  simp only [nextMove, checkIfGameOverS_eq]
  split <;> rfl

lemma nextMove_gameState_full {n : Nat} (s : GameSession n) (m : Move)
    (pts : List (Fin n × Fin n))
    (hfull : ∀ p, moveAllItemsInDir m s.gameState p ≠ none) :
    (nextMove s m pts).gameState = moveAllItemsInDir m s.gameState := by
  simp only [nextMove, checkIfGameOverS_eq]
  rw [if_pos]
  rw [List.all_eq_true]
  intro p _
  rw [Bool.not_eq_true', beq_eq_false_iff_ne]
  exact hfull p

lemma nextMove_gameState_spawn {n : Nat} (s : GameSession n) (m : Move)
    (pts : List (Fin n × Fin n))
    (hne : ∃ q, moveAllItemsInDir m s.gameState q = none) :
    (nextMove s m pts).gameState
      = addNumToRandomPoint (moveAllItemsInDir m s.gameState) 2 pts := by
  simp only [nextMove, checkIfGameOverS_eq]
  rw [if_neg]
  intro hallfull
  rw [List.all_eq_true] at hallfull
  obtain ⟨q, hq⟩ := hne
  have h2 := hallfull q (mem_passOrder q)
  rw [Bool.not_eq_true', beq_eq_false_iff_ne] at h2
  exact h2 hq

/-- The rejection sampler writes `val` into the first sampled empty cell
and touches nothing else. -/
lemma addNum_spec {n : Nat} (val : Nat) :
    ∀ (pts : List (Fin n × Fin n)) (g : Grid n),
      (∃ c ∈ pts, g c = none) →
      ∃ c, g c = none ∧ addNumToRandomPoint g val pts = Function.update g c (some val) := by
  intro pts
  induction pts with
  | nil =>
    intro g h
    obtain ⟨c, hc, _⟩ := h
    exact absurd hc (List.not_mem_nil c)
  | cons c rest ih =>
    intro g h
    unfold addNumToRandomPoint
    by_cases hc : g c = none
    · rw [if_pos hc]
      exact ⟨c, hc, rfl⟩
    · rw [if_neg hc]
      apply ih g
      obtain ⟨c2, hc2, hc2e⟩ := h
      rcases List.mem_cons.mp hc2 with rfl | hmem
      · exact absurd hc2e hc
      · exact ⟨c2, hmem, hc2e⟩

/-! ### Claim theorems -/

/-- C1 (counterexample): the claimed invariant fails at a session state
reachable at the public interface.  `c1Trace` is six nextMove calls from a
fresh 2 × 2 session; the last spawn fills the only empty cell and produces
a completely full board that no move changes, yet isGameOver — computed
before that spawn — is still false. -/
theorem c1_counterexample :
    c1Trace.isGameOver = false ∧
    (∀ p, c1Trace.gameState p ≠ none) ∧
    ∀ m : Move, moveAllItemsInDir m c1Trace.gameState = c1Trace.gameState := by
  refine ⟨by decide, by decide, by decide⟩

/-- C1 (amended): after any nextMove call the terminal flag is true iff
the grid as it stood after move resolution and before the random spawn is
completely full and no move would change it.  (If the spawn then fills the
last empty cell, the current grid can be full and immovable while the flag
stays false until the next call.) -/
theorem c1_amended {n : Nat} (hn : 0 < n) (s : GameSession n) (m : Move)
    (pts : List (Fin n × Fin n)) :
    (nextMove s m pts).isGameOver = true ↔
      ((∀ p, moveAllItemsInDir m s.gameState p ≠ none) ∧
       ∀ m2 : Move, moveAllItemsInDir m2 (moveAllItemsInDir m s.gameState)
         = moveAllItemsInDir m s.gameState) := by
  rw [nextMove_isGameOver, checkIfGameOver_full_iff hn]

/-- Witness for C1 (amended) at a concrete full 1 × 1 session. -/
theorem c1_amended_witness :
    (nextMove c1FullSession Move.up []).isGameOver = true :=
  (c1_amended Nat.one_pos c1FullSession Move.up []).mpr (by decide)

/-- C2: on the size-4 board whose row 0 is [2, 2, 2, empty], a left move
run to its fixed point yields row 0 = [4, 2, empty, empty] and leaves all
other cells empty. -/
theorem c2_cascade : moveAllItemsInDir Move.left c2Start = c2Result := by decide

/-- C3: right after checkIfGameOver runs, a grid with at least one empty
cell always has the terminal flag false. -/
theorem c3_empty_not_over {n : Nat} (s : GameSession n)
    (h : ∃ p, s.gameState p = none) :
    (checkIfGameOverS s).isGameOver = false := by
  rw [checkIfGameOverS_eq]
  show checkIfGameOver s.gameState = false
  cases hb : checkIfGameOver s.gameState with
  | false => rfl
  | true =>
    exfalso
    obtain ⟨⟨p0, hp0⟩, hall⟩ := (checkIfGameOver_spec s.gameState).mp hb
    obtain ⟨q, hq⟩ := h
    obtain ⟨m, hm⟩ := movable_all s.gameState ⟨p0, hp0⟩ ⟨q, hq⟩
    exact hm (hall m)

/-- Witness for C3 at the fresh 1 × 1 session. -/
theorem c3_empty_not_over_witness :
    (checkIfGameOverS (initSession 1)).isGameOver = false :=
  c3_empty_not_over (initSession 1) ⟨((0 : Fin 1), (0 : Fin 1)), rfl⟩

/-- C4: resolving the same direction twice with no spawn in between is the
same as resolving it once — the pass-to-fixed-point loop is idempotent. -/
theorem c4_idempotent {n : Nat} (m : Move) (g : Grid n) :
    moveAllItemsInDir m (moveAllItemsInDir m g) = moveAllItemsInDir m g :=
  moveAll_of_fix m (moveAll_fix m g)

/-- C5: in nextMove, once move resolution has finished, a spawn happens
exactly when some cell is empty; it turns one sampled empty cell into a 2
and changes no other cell, and a completely full grid is left untouched.
(The sampled stream `pts` is assumed to reach an empty cell, which is how
the unbounded rejection loop of the source exits.) -/
theorem c5_spawn_spec {n : Nat} (s : GameSession n) (m : Move)
    (pts : List (Fin n × Fin n)) :
    ((∃ c ∈ pts, moveAllItemsInDir m s.gameState c = none) →
      ∃ c, moveAllItemsInDir m s.gameState c = none ∧
        (nextMove s m pts).gameState c = some 2 ∧
        ∀ p, p ≠ c →
          (nextMove s m pts).gameState p = moveAllItemsInDir m s.gameState p) ∧
    ((∀ p, moveAllItemsInDir m s.gameState p ≠ none) →
      (nextMove s m pts).gameState = moveAllItemsInDir m s.gameState) := by
  constructor
  · intro hpts
    obtain ⟨c0, hc0mem, hc0⟩ := hpts
    rw [nextMove_gameState_spawn s m pts ⟨c0, hc0⟩]
    obtain ⟨c, hc, heq⟩ :=
      addNum_spec 2 pts (moveAllItemsInDir m s.gameState) ⟨c0, hc0mem, hc0⟩
    refine ⟨c, hc, ?_, ?_⟩
    · rw [heq, Function.update_same]
    · intro p hpc
      rw [heq, Function.update_noteq hpc]
  · exact nextMove_gameState_full s m pts

/-- Witness for C5 at the fresh 1 × 1 session: the spawn fills the cell. -/
theorem c5_spawn_spec_witness :
    ∃ c, moveAllItemsInDir Move.up (initSession 1).gameState c = none ∧
      (nextMove (initSession 1) Move.up
        [((0 : Fin 1), (0 : Fin 1))]).gameState c = some 2 ∧
      ∀ p, p ≠ c →
        (nextMove (initSession 1) Move.up
          [((0 : Fin 1), (0 : Fin 1))]).gameState p
          = moveAllItemsInDir Move.up (initSession 1).gameState p :=
  (c5_spawn_spec (initSession 1) Move.up [((0 : Fin 1), (0 : Fin 1))]).1 (by decide)

/-- C6: the pass loop of moveAllItemsInDir terminates: every changing pass
strictly lowers the total displacement toward the target edge, the result
is some finite iterate of the single pass, and one more pass leaves that
result unchanged (the loop exits at a fixed point). -/
theorem c6_terminates {n : Nat} (m : Move) (g : Grid n) :
    (∀ h : Grid n, movePass m h ≠ h →
      potential m (movePass m h) < potential m h) ∧
    ∃ k, moveAllItemsInDir m g = (movePass m)^[k] g ∧
      movePass m (moveAllItemsInDir m g) = moveAllItemsInDir m g := by
  refine ⟨fun h hne => movePass_lt hne, ?_⟩
  obtain ⟨k, hk⟩ := moveAll_iterate m g
  exact ⟨k, hk, moveAll_fix m g⟩

/-- Witness for C6: a concrete changing pass strictly lowers the measure. -/
theorem c6_terminates_witness :
    potential Move.left (movePass Move.left c6Grid) < potential Move.left c6Grid :=
  (c6_terminates Move.left c6Grid).1 c6Grid (by decide)

/-- C7: checkIfGameOver leaves the board untouched; the simulated moves
run on disposable copies, and only the terminal flag is written (with a
value depending on the grid alone). -/
theorem c7_frame {n : Nat} (s : GameSession n) :
    (checkIfGameOverS s).gameState = s.gameState ∧
    (checkIfGameOverS s).isGameOver = checkIfGameOver s.gameState := by
  rw [checkIfGameOverS_eq]
  exact ⟨rfl, rfl⟩

/-- C8: getItem and setItem fail exactly on out-of-range coordinates; in
range they never fail, getItem reads the cell, and setItem overwrites that
cell and no other. -/
theorem c8_range_spec (n : Nat) (g : Grid n) (x y : Int) (v : Option Nat) :
    ((getItem n g x y = Except.error () ↔ ¬ inRange n x y) ∧
     (setItem n g x y v = Except.error () ↔ ¬ inRange n x y)) ∧
    ∀ h : inRange n x y,
      getItem n g x y = Except.ok (g (toCell h)) ∧
      ∃ g2, setItem n g x y v = Except.ok g2 ∧ g2 (toCell h) = v ∧
        ∀ p, p ≠ toCell h → g2 p = g p := by
  refine ⟨⟨?_, ?_⟩, ?_⟩
  · unfold getItem
    by_cases hr : inRange n x y
    · rw [dif_pos hr]
      simp [hr]
    · rw [dif_neg hr]
      simp [hr]
  · unfold setItem
    by_cases hr : inRange n x y
    · rw [dif_pos hr]
      simp [hr]
    · rw [dif_neg hr]
      simp [hr]
  · intro h
    refine ⟨?_, Function.update g (toCell h) v, ?_, ?_, ?_⟩
    · unfold getItem
      rw [dif_pos h]
    · unfold setItem
      rw [dif_pos h]
    · exact Function.update_same _ _ _
    · intro p hp
      exact Function.update_noteq hp _ _

/-- Witness for C8: an out-of-range access fails, an in-range one reads. -/
theorem c8_range_spec_witness :
    getItem 4 c8Grid 5 0 = Except.error () ∧
    getItem 4 c8Grid 1 2 = Except.ok (some 8) := by
  constructor
  · exact (c8_range_spec 4 c8Grid 5 0 none).1.1.mpr (by decide)
  · have h2 := ((c8_range_spec 4 c8Grid 1 2 none).2 (by decide)).1
    rw [h2]
    rfl

/-- C9: move resolution preserves the total of all tile values: shifts
relocate a value and merges replace two equal values by their sum. -/
theorem c9_sum_invariant {n : Nat} (m : Move) (g : Grid n) :
    sumGrid (moveAllItemsInDir m g) = sumGrid g :=
  moveAll_sum m g

/-- C10: a fresh session has an all-empty board and a false flag; the
first nextMove call moves nothing (the all-empty grid is a fixed point of
the loop), keeps the flag false, and spawns exactly one 2. -/
theorem c10_first_move {n : Nat} (hn : 0 < n) (m : Move) (c : Fin n × Fin n) :
    (∀ p, (initSession n).gameState p = none) ∧
    (initSession n).isGameOver = false ∧
    moveAllItemsInDir m (initSession n).gameState = (initSession n).gameState ∧
    (nextMove (initSession n) m [c]).isGameOver = false ∧
    (nextMove (initSession n) m [c]).gameState c = some 2 ∧
    ∀ p, p ≠ c → (nextMove (initSession n) m [c]).gameState p = none := by
  have hmove : moveAllItemsInDir m (initSession n).gameState
      = (initSession n).gameState :=
    moveAll_of_fix m (movePass_empty m)
  have hflag : checkIfGameOver (emptyGrid n) = false := by
    cases hb : checkIfGameOver (emptyGrid n) with
    | false => rfl
    | true =>
      obtain ⟨⟨p0, hp0⟩, _⟩ := (checkIfGameOver_spec (emptyGrid n)).mp hb
      exact absurd rfl hp0
  have hgrid : (nextMove (initSession n) m [c]).gameState
      = Function.update (emptyGrid n) c (some 2) := by
    rw [nextMove_gameState_spawn (initSession n) m [c]
      ⟨c, by rw [hmove]; rfl⟩]
    rw [hmove]
    show addNumToRandomPoint (emptyGrid n) 2 [c] = _
    unfold addNumToRandomPoint
    rw [if_pos (show emptyGrid n c = none from rfl)]
  refine ⟨fun p => rfl, rfl, hmove, ?_, ?_, ?_⟩
  · rw [nextMove_isGameOver, hmove]
    exact hflag
  · rw [hgrid]
    exact Function.update_same _ _ _
  · intro p hp
    rw [hgrid]
    exact Function.update_noteq hp _ _

/-- Witness for C10 at size 1: the spawned 2 is on the board. -/
theorem c10_first_move_witness :
    (nextMove (initSession 1) Move.up
      [((0 : Fin 1), (0 : Fin 1))]).gameState ((0 : Fin 1), (0 : Fin 1)) = some 2 :=
  (c10_first_move Nat.one_pos Move.up ((0 : Fin 1), (0 : Fin 1))).2.2.2.2.1

end Game2048
